import Mathlib

/-!
Verification development for the multinode-provider repository: a shallow
embedding of `src/modules/multinode-provider.ts` and
`src/modules/block-reader.ts`, followed by theorems about the embedded
operations.

Conventions of the embedding:
* JavaScript numbers holding block heights are modelled as `Int`
  (subtraction such as `median - window` or `currentBlock - rereadBlocks`
  may go negative in the source, so `Nat` truncation would be unfaithful).
* A value that may be JS `null` is an `Option`.
* A promise that may reject is modelled by an `Option`/`Except` result or
  by an explicit outcome datatype.
* `Array.prototype.sort((a, b) => a - b)` is an ascending stable sort of
  integers; on `Int` any two equal elements are indistinguishable, so it
  is embedded as `List.insertionSort (· ≤ ·)`.
-/

/-! ### multinode-provider.ts — consensus head selection -/

/-- `numbers.slice().sort((a, b) => a - b)` from `_pickConsensusHead`. -/
def sortAsc (l : List Int) : List Int :=
  List.insertionSort (· ≤ ·) l

/-- The median computed by `_pickConsensusHead`:
`mid = floor(len / 2)`; for an odd count `sorted[mid]`, for an even count
`sorted[mid - 1]` (the lower of the two central values). -/
def medianOf (l : List Int) : Int :=
  if (sortAsc l).length % 2 = 1 then (sortAsc l).getD ((sortAsc l).length / 2) 0
  else (sortAsc l).getD ((sortAsc l).length / 2 - 1) 0

/-- `sorted.filter((n) => n >= median - window && n <= median + window)`. -/
def keptOf (w : Int) (l : List Int) : List Int :=
  (sortAsc l).filter fun n =>
    decide (medianOf l - w ≤ n) && decide (n ≤ medianOf l + w)

/-- Shallow embedding of `_pickConsensusHead(numbers)`.
`w` is `this._consensusWindow`, `lastHead` is `this._lastHead`.
Returns `none` exactly when the observation list is empty (the JS code
returns `null`). `pool[pool.length - 1]` is `getD (length - 1) 0`. -/
def pickConsensusHead (w lastHead : Int) (numbers : List Int) : Option Int :=
  if numbers.isEmpty then none
  else
    let inWindow := keptOf w numbers
    let pool := if inWindow.isEmpty then sortAsc numbers else inWindow
    let best := pool.getD (pool.length - 1) 0
    some (if best < lastHead then lastHead else best)

/-- Shallow embedding of `getBlockNumber()` as a state transition on
`_lastHead`.  `raw` holds one entry per configured endpoint: `none` for an
endpoint whose height request threw or timed out, `some n` for a reported
height.  Result: `none` when the call throws ("All RPC nodes failed for
getBlockNumber()"), otherwise `some (returned value, new _lastHead)`. -/
def getBlockNumberS (w lastHead : Int) (raw : List (Option Int)) :
    Option (Int × Int) :=
  match pickConsensusHead w lastHead (raw.filterMap id) with
  | none => none
  | some consensus =>
      let lastHead1 := if consensus > lastHead then consensus else lastHead
      some (lastHead1, lastHead1)

/-- A sequence of `getBlockNumber()` calls on one provider instance:
threads `_lastHead` through the calls and records each call's outcome
(`none` for a throwing call). -/
def runCalls (w : Int) : Int → List (List (Option Int)) →
    List (Option Int) × Int
  | lastHead, [] => ([], lastHead)
  | lastHead, raw :: rest =>
      match getBlockNumberS w lastHead raw with
      | none =>
          let out := runCalls w lastHead rest
          (none :: out.1, out.2)
      | some (r, lastHead1) =>
          let out := runCalls w lastHead1 rest
          (some r :: out.1, out.2)

/-! ### multinode-provider.ts — fan-out executor `_executeParallel` -/

/-- The settled outcome of one endpoint's `task(provider)` call before the
executor's own `try`/`catch`: either the promise fulfilled with a JS value
(which may be `null`, hence `Option`), or it rejected (transport error or
the `_withTimeout` rejection). -/
inductive RpcResult (α : Type) where
  | ok (value : Option α)
  | err
  deriving DecidableEq

/-- One entry of the `results` array built by `_executeParallel`'s
`Promise.all`: a rejected or validation-failed call is caught and mapped
to `null`; a fulfilled call whose value passes the validator yields the
value itself (which may itself be `null`). -/
def settleOne (validate : Option α → Bool) : RpcResult α → Option α
  | .ok v => if validate v then v else none
  | .err => none

/-- Shallow embedding of `_executeParallel(task, validate)`.
`outcomes` lists each endpoint's settled outcome in the configured
endpoint order (`Promise.all` preserves array order regardless of which
promise settles first in time).  `results.find((r) => r !== null)` is
`find? Option.isSome`; an absent JS validator is `fun _ => true`.
The final `if (!ok) throw` tests JS *truthiness* of the found value, not
whether `find` succeeded: `isTruthy` embeds truthiness for the result
type (objects are always truthy; `0n`, `0`, `false`, `""` are falsy), so
the call throws both when no non-`null` result exists and when the first
non-`null` result is falsy.  The `some none` branch is unreachable
(`find? Option.isSome` only returns `isSome` entries) and mapped to the
error, matching `!null` being truthy. -/
def executeParallel (isTruthy : α → Bool) (validate : Option α → Bool)
    (outcomes : List (RpcResult α)) : Except String (Option α) :=
  match (outcomes.map (settleOne validate)).find? Option.isSome with
  | some (some a) =>
      if isTruthy a then Except.ok (some a)
      else Except.error "All RPC nodes failed"
  | some none => Except.error "All RPC nodes failed"
  | none => Except.error "All RPC nodes failed"

/-- An endpoint outcome that the executor's scan can select: the call
fulfilled with a non-`null` value accepted by the validator. -/
def isValidatedSuccess (validate : Option α → Bool) : RpcResult α → Bool
  | .ok (some a) => validate (some a)
  | _ => false

/-! ### multinode-provider.ts — per-method validators -/

/-- JS truthiness of a nullable string field (`null`/`undefined` and the
empty string are falsy). -/
def truthy : Option String → Bool
  | some s => !s.isEmpty
  | none => false

/-- The part of an ethers `Block` the validator `b => !!(b && b.hash)`
inspects. -/
structure BlockJs where
  hash : Option String
  deriving DecidableEq

/-- The part of an ethers `TransactionResponse` the validator
`tx => !!(tx && tx.hash)` inspects. -/
structure TxJs where
  hash : Option String
  deriving DecidableEq

/-- The part of an ethers `TransactionReceipt` the validator
`r => !!(r && "status" in r)` inspects: `"status" in r` is a field
*presence* test, modelled by an explicit flag. -/
structure ReceiptJs where
  hasStatus : Bool
  deriving DecidableEq

/-- `b => !!(b && b.hash)` from `getBlock`. -/
def blockValidator : Option BlockJs → Bool
  | some b => truthy b.hash
  | none => false

/-- `tx => !!(tx && tx.hash)` from `getTransaction`. -/
def txValidator : Option TxJs → Bool
  | some tx => truthy tx.hash
  | none => false

/-- `r => !!(r && "status" in r)` from `getTransactionReceipt`. -/
def receiptValidator : Option ReceiptJs → Bool
  | some r => r.hasStatus
  | none => false

/-- `getBlock` routed through the fan-out executor.  A fulfilled block is
a JS object and objects are always truthy, so `isTruthy` is constantly
`true` for this instantiation (likewise below). -/
def getBlockM (outcomes : List (RpcResult BlockJs)) :
    Except String (Option BlockJs) :=
  executeParallel (fun _ => true) blockValidator outcomes

/-- `getTransaction` routed through the fan-out executor. -/
def getTransactionM (outcomes : List (RpcResult TxJs)) :
    Except String (Option TxJs) :=
  executeParallel (fun _ => true) txValidator outcomes

/-- `getTransactionReceipt` routed through the fan-out executor. -/
def getTransactionReceiptM (outcomes : List (RpcResult ReceiptJs)) :
    Except String (Option ReceiptJs) :=
  executeParallel (fun _ => true) receiptValidator outcomes

/-! ### multinode-provider.ts — `getLogs` -/

/-- Settled outcome of one endpoint's `provider.getLogs(filter)` call:
fulfilled with a list of logs, or rejected/timed out. -/
inductive LogOutcome (α : Type) where
  | ok (logs : List α)
  | err
  deriving DecidableEq

/-- The `catch` in `getLogs` maps a failing endpoint to `[]`. -/
def settleLogs : LogOutcome α → List α
  | .ok l => l
  | .err => []

/-- The reducer `(a, b) => b.length > a.length ? b : a`. -/
def pickLonger (a b : List α) : List α :=
  if b.length > a.length then b else a

/-- `results.reduce(pickLonger)` with no initial value: JS throws a
`TypeError` on an empty array (`none` here); the provider list is
non-empty by construction. -/
def getLogsSelect : List (List α) → Option (List α)
  | [] => none
  | a :: rest => some (rest.foldl pickLonger a)

/-- Shallow embedding of `getLogs(filter)` over the endpoints' settled
outcomes in configured order. -/
def getLogsM (outcomes : List (LogOutcome α)) : Option (List α) :=
  getLogsSelect (outcomes.map settleLogs)

/-! ### block-reader.ts — startup checkpoint logic -/

/-- Shallow embedding of `loadLastProcessedBlock()` for the case where the
checkpoint file exists and the current height query succeeds.
`c` is `parseInt(data, 10) || 0` (so an unreadable value is `0`), `h` is
`provider.getBlockNumber()`, `rereadBlocks = 10`.  The JS guard is
`currentBlock - lastProcessedBlock > this.rereadBlocks || !lastProcessedBlock`,
and `!lastProcessedBlock` is truthiness: it holds exactly for `0`. -/
def loadLastProcessedBlock (c h : Int) : Int :=
  if h - c > 10 ∨ c = 0 then h - 10 else c

/-- `start()` sets `expectedBlockNumber = await loadLastProcessedBlock() + 1`:
the first block number the ingestion loop will emit. -/
def resumePoint (c h : Int) : Int :=
  loadLastProcessedBlock c h + 1

/-! ### block-reader.ts — drain of the pending buffer -/

/-- Observable actions of the drain loop in `readBlocksLoop`: persisting
the checkpoint (`saveLastProcessedBlock(n)`) and announcing the block
(`emit('new_block', ...)` for block `n`). -/
inductive DrainEv where
  | save (n : Int)
  | emitB (n : Int)
  deriving DecidableEq

/-- The drain loop of `readBlocksLoop`:
`while (fetchedBlocks.has(expectedBlockNumber)) { ... delete; process;
save; emit; expectedBlockNumber++ }`.  The buffer is the list of block
numbers currently held by `fetchedBlocks`; `fuel` bounds the iteration
count (each pass removes one entry, so `buf.length` fuel is exact).
Returns the event trace in execution order, the final cursor, and the
final buffer. -/
def drainGo : Nat → List Int → Int → List DrainEv × Int × List Int
  | 0, buf, cursor => ([], cursor, buf)
  | fuel + 1, buf, cursor =>
      if cursor ∈ buf then
        let rest := drainGo fuel (buf.erase cursor) (cursor + 1)
        (DrainEv.save cursor :: DrainEv.emitB cursor :: rest.1, rest.2)
      else ([], cursor, buf)

/-- The trace produced by draining a run of `k` consecutive blocks
starting at cursor `c`: `save n` strictly precedes `emitB n` for each,
and the cursor advances only after the announcement. -/
def runTrace (c : Int) : Nat → List DrainEv
  | 0 => []
  | k + 1 => DrainEv.save c :: DrainEv.emitB c :: runTrace (c + 1) k

/-- Removing the `k` consecutive block numbers `c, c+1, ..., c+k-1` from
the buffer, in drain order. -/
def removeRun (buf : List Int) (c : Int) : Nat → List Int
  | 0 => buf
  | k + 1 => removeRun (buf.erase c) (c + 1) k

/-! ### block-reader.ts — one iteration of `readBlocksLoop` -/

/-- The consecutive block numbers `c, c+1, ..., c+k-1`, as produced by the
batching `for` loop's `nextBlock++`. -/
def consRun (c : Int) : Nat → List Int
  | 0 => []
  | k + 1 => c :: consRun (c + 1) k

/-- The number of requests the batching `for` loop issues when
`nextBlock ≤ head`: `min 5 (head - nextBlock + 1)`
(`this.maxParallelBlocks = 5`). -/
def batchSize (nextBlock head : Int) : Nat :=
  min 5 (head + 1 - nextBlock).toNat

/-- One iteration of `readBlocksLoop` after the height snapshot: the
`while (nextBlock <= head)` loop.  `fetchOk n` records whether
`tryGetBlock n` produced a block (a `null` block is dropped from the
batch).  Tracks the maximum size the pending buffer `fetchedBlocks`
reaches right after a batch settles.  `fuel` bounds the number of
batches; each batch advances `nextBlock` by at least one.  Returns the
final cursor, the final buffer, and the recorded maximum buffer size. -/
def iterGo (fetchOk : Int → Bool) (head : Int) :
    Nat → Int → Int → List Int → Nat → Int × List Int × Nat
  | 0, _, expected, buf, m => (expected, buf, m)
  | fuel + 1, nextBlock, expected, buf, m =>
      if nextBlock ≤ head then
        let batch := consRun nextBlock (batchSize nextBlock head)
        let buf1 := buf ++ batch.filter fetchOk
        let m1 := max m buf1.length
        let d := drainGo buf1.length buf1 expected
        iterGo fetchOk head fuel (nextBlock + (batch.length : Int))
          d.2.1 d.2.2 m1
      else (expected, buf, m)

/-- One full iteration starting with cursor `expected` and an empty
pending buffer, exactly as `readBlocksLoop` does
(`nextBlock = this.expectedBlockNumber`, fresh `fetchedBlocks` map). -/
def iteration (fetchOk : Int → Bool) (head expected : Int) :
    Int × List Int × Nat :=
  iterGo fetchOk head (head + 1 - expected).toNat expected expected [] 0

/-! ### block-reader.ts — `tryGetBlock` retry loop -/

/-- Outcome of one `provider.getBlock(blockNumber, true)` invocation
inside `tryGetBlock`: the promise rejects, or fulfils with a block that
lacks a hash, or fulfils with a usable block. -/
inductive FetchOutcome where
  | throwsErr
  | noHash
  | good
  deriving DecidableEq

/-- Shallow embedding of the `while (attempts < maxAttempts)` loop of
`tryGetBlock`.  `outs i` is the outcome of the `i`-th `getBlock`
invocation.  On a rejection the `catch` block increments `attempts` and
sleeps 1 s when `attempts < maxAttempts`, and then the increment at the
loop tail runs as well; on a hash-less response only the tail increment
runs.  Returns (block obtained?, number of `getBlock` invocations,
number of 1-second sleeps).  `fuel = maxA` suffices since every pass
increments `attempts` at least once. -/
def tryGetBlockGo (outs : Nat → FetchOutcome) (maxA : Nat) :
    Nat → Nat → Nat → Nat → Bool × Nat × Nat
  | 0, _, calls, sleeps => (false, calls, sleeps)
  | fuel + 1, attempts, calls, sleeps =>
      if attempts < maxA then
        match outs calls with
        | .good => (true, calls + 1, sleeps)
        | .noHash => tryGetBlockGo outs maxA fuel (attempts + 1) (calls + 1) sleeps
        | .throwsErr =>
            let a1 := attempts + 1
            let s1 := if a1 < maxA then sleeps + 1 else sleeps
            tryGetBlockGo outs maxA fuel (a1 + 1) (calls + 1) s1
      else (false, calls, sleeps)

/-- `tryGetBlock(blockNumber, maxAttempts)` with `attempts = 0`. -/
def tryGetBlockSim (outs : Nat → FetchOutcome) (maxA : Nat) :
    Bool × Nat × Nat :=
  tryGetBlockGo outs maxA maxA 0 0 0

/-! ### Helper lemmas about sorting and list access -/

lemma sortAsc_sorted (l : List Int) : (sortAsc l).Sorted (· ≤ ·) :=
  List.sorted_insertionSort _ l

lemma mem_sortAsc {l : List Int} {x : Int} : x ∈ sortAsc l ↔ x ∈ l :=
  List.mem_insertionSort _

lemma sortAsc_ne_nil {l : List Int} (h : l ≠ []) : sortAsc l ≠ [] := by
  intro hs
  apply h
  have hl : l.length = 0 := by
    have hc := congrArg List.length hs
    simpa [sortAsc, List.length_insertionSort] using hc
  exact List.length_eq_zero.mp hl

lemma getD_mem : ∀ (l : List Int) (n : Nat), n < l.length → l.getD n 0 ∈ l := by
  intro l
  induction l with
  | nil => intro n h; simp at h
  | cons x t ih =>
    intro n h
    cases n with
    | zero => simp
    | succ n => exact List.mem_cons_of_mem x (ih n (by simpa using h))

lemma getD_last : ∀ (l : List Int) (h : l ≠ []),
    l.getD (l.length - 1) 0 = l.getLast h := by
  intro l
  induction l with
  | nil => intro h; cases h rfl
  | cons x t ih =>
    intro h
    cases t with
    | nil => simp
    | cons y t2 =>
      have hne : (y :: t2 : List Int) ≠ [] := List.cons_ne_nil _ _
      have hlen : (x :: y :: t2).length - 1 = ((y :: t2).length - 1) + 1 := by
        simp
      rw [hlen, List.getD_cons_succ, ih hne, List.getLast_cons hne]

lemma le_getLast_of_sorted : ∀ (l : List Int), l.Sorted (· ≤ ·) →
    ∀ (h : l ≠ []) (x : Int), x ∈ l → x ≤ l.getLast h := by
  intro l
  induction l with
  | nil => intro _ h; cases h rfl
  | cons a t ih =>
    intro hs h x hx
    cases t with
    | nil =>
      simp only [List.mem_singleton] at hx
      simp [hx]
    | cons y t2 =>
      have hne : (y :: t2 : List Int) ≠ [] := List.cons_ne_nil _ _
      rw [List.getLast_cons hne]
      rcases List.mem_cons.mp hx with rfl | hx2
      · exact (List.sorted_cons.mp hs).1 _ (List.getLast_mem hne)
      · exact ih (List.sorted_cons.mp hs).2 hne x hx2

/-! ### Helper lemmas about the consensus selector -/

lemma keptOf_sorted (w : Int) (l : List Int) : (keptOf w l).Sorted (· ≤ ·) :=
  List.Pairwise.sublist (List.filter_sublist _) (sortAsc_sorted l)

lemma mem_keptOf {w : Int} {l : List Int} {n : Int} :
    n ∈ keptOf w l ↔ n ∈ l ∧ medianOf l - w ≤ n ∧ n ≤ medianOf l + w := by
  simp [keptOf, List.mem_filter, mem_sortAsc, and_assoc]

lemma medianOf_mem {l : List Int} (h : l ≠ []) : medianOf l ∈ sortAsc l := by
  have hlen : 0 < (sortAsc l).length := by
    cases hs : sortAsc l with
    | nil => exact absurd hs (sortAsc_ne_nil h)
    | cons a t => simp
  unfold medianOf
  by_cases hp : (sortAsc l).length % 2 = 1
  · rw [if_pos hp]
    exact getD_mem _ _ (Nat.div_lt_self hlen one_lt_two)
  · rw [if_neg hp]
    exact getD_mem _ _
      (lt_of_le_of_lt (Nat.sub_le _ _) (Nat.div_lt_self hlen one_lt_two))

lemma medianOf_mem_keptOf {w : Int} {l : List Int} (hw : 0 ≤ w) (h : l ≠ []) :
    medianOf l ∈ keptOf w l := by
  refine mem_keptOf.mpr ⟨mem_sortAsc.mp (medianOf_mem h), by linarith, by linarith⟩

lemma keptOf_ne_nil {w : Int} {l : List Int} (hw : 0 ≤ w) (h : l ≠ []) :
    keptOf w l ≠ [] :=
  List.ne_nil_of_mem (medianOf_mem_keptOf hw h)

lemma pickConsensusHead_some_ge {w lh : Int} {nums : List Int} (h : nums ≠ []) :
    ∃ c, pickConsensusHead w lh nums = some c ∧ lh ≤ c := by
  have hne : nums.isEmpty = false := by simpa [List.isEmpty_iff] using h
  simp only [pickConsensusHead, hne, Bool.false_eq_true, if_false]
  refine ⟨_, rfl, ?_⟩
  split <;> split <;> omega

lemma getBlockNumberS_step {w lastHead : Int} {raw : List (Option Int)}
    (h : raw.filterMap id ≠ []) :
    ∃ r, getBlockNumberS w lastHead raw = some (r, r) ∧ lastHead ≤ r := by
  obtain ⟨c, hc, hle⟩ := @pickConsensusHead_some_ge w lastHead _ h
  refine ⟨if c > lastHead then c else lastHead, ?_, ?_⟩
  · simp [getBlockNumberS, hc]
  · split
    · next h2 => exact le_of_lt h2
    · exact le_refl lastHead

lemma runCalls_chain (w : Int) : ∀ (calls : List (List (Option Int))) (lh : Int),
    (∀ raw ∈ calls, raw.filterMap id ≠ []) →
    ∃ vs : List Int, (runCalls w lh calls).1 = vs.map some ∧
      List.Pairwise (· ≤ ·) (lh :: vs) := by
  intro calls
  induction calls with
  | nil => intro lh _; exact ⟨[], rfl, by simp⟩
  | cons raw rest ih =>
    intro lh h
    obtain ⟨r, hr, hler⟩ :=
      @getBlockNumberS_step w lh raw (h raw (by simp))
    obtain ⟨vs, hvs, hp⟩ := ih r (fun x hx => h x (by simp [hx]))
    refine ⟨r :: vs, ?_, ?_⟩
    · simp [runCalls, hr, hvs]
    · rw [List.pairwise_cons]
      refine ⟨?_, hp⟩
      intro b hb
      rcases List.mem_cons.mp hb with rfl | hb2
      · exact hler
      · exact le_trans hler ((List.pairwise_cons.mp hp).1 b hb2)

/-- C1 — Consensus height selection: for a call with at least one
successful height observation and a non-negative window, `getBlockNumber`
returns `max s lastHead` where `s` is the maximum of the kept subset, the
kept subset is exactly the observations within `window` of the median and
is never empty (so the fallback to the full sorted set never fires), and
the worked example from the spec holds: observations
`[811995, 812000, 812001, 812002, 812050]` with window 5 keep
`[812000, 812001, 812002]`, select `812002`, and with prior ratchet value
`812005` the call returns `812005`. -/
theorem consensus_height_selection (raw : List (Option Int)) (w lastHead : Int)
    (hne : raw.filterMap id ≠ []) (hw : 0 ≤ w) :
    (∃ r s,
      getBlockNumberS w lastHead raw = some (r, r) ∧
      s ∈ keptOf w (raw.filterMap id) ∧
      (∀ x ∈ keptOf w (raw.filterMap id), x ≤ s) ∧
      r = max s lastHead ∧
      keptOf w (raw.filterMap id) ≠ [] ∧
      (∀ n : Int, n ∈ keptOf w (raw.filterMap id) ↔
        n ∈ raw.filterMap id ∧ medianOf (raw.filterMap id) - w ≤ n ∧
          n ≤ medianOf (raw.filterMap id) + w)) ∧
    medianOf [811995, 812000, 812001, 812002, 812050] = 812001 ∧
    keptOf 5 [811995, 812000, 812001, 812002, 812050] =
      [812000, 812001, 812002] ∧
    pickConsensusHead 5 0 [811995, 812000, 812001, 812002, 812050] =
      some 812002 ∧
    getBlockNumberS 5 812005
      (([811995, 812000, 812001, 812002, 812050] : List Int).map some) =
      some (812005, 812005) := by
  refine ⟨?_, by decide, by decide, by decide, by decide⟩
  set nums := raw.filterMap id with hnums
  have hk : keptOf w nums ≠ [] := keptOf_ne_nil hw hne
  have hkE : (keptOf w nums).isEmpty = false := by
    simpa [List.isEmpty_iff] using hk
  have hnE : nums.isEmpty = false := by
    simpa [List.isEmpty_iff] using hne
  have hsmem : (keptOf w nums).getLast hk ∈ keptOf w nums := List.getLast_mem hk
  have hsmax : ∀ x ∈ keptOf w nums, x ≤ (keptOf w nums).getLast hk :=
    fun x hx => le_getLast_of_sorted _ (keptOf_sorted w nums) hk x hx
  have hbest : (keptOf w nums).getD ((keptOf w nums).length - 1) 0 =
      (keptOf w nums).getLast hk := getD_last _ hk
  have hpick : pickConsensusHead w lastHead nums =
      some (max ((keptOf w nums).getLast hk) lastHead) := by
    simp only [pickConsensusHead, hnE, Bool.false_eq_true, if_false, hkE, hbest]
    congr 1
    by_cases hlt : (keptOf w nums).getLast hk < lastHead
    · rw [if_pos hlt, max_eq_right (le_of_lt hlt)]
    · rw [if_neg hlt, max_eq_left (le_of_not_lt hlt)]
  refine ⟨max ((keptOf w nums).getLast hk) lastHead, (keptOf w nums).getLast hk,
    ?_, hsmem, hsmax, rfl, hk, fun n => mem_keptOf⟩
  simp only [getBlockNumberS, ← hnums, hpick]
  have hite : (if max ((keptOf w nums).getLast hk) lastHead > lastHead then
      max ((keptOf w nums).getLast hk) lastHead else lastHead) =
      max ((keptOf w nums).getLast hk) lastHead := by
    have hge := le_max_right ((keptOf w nums).getLast hk) lastHead
    split <;> omega
  simp [hite]

/-- Witness for C1 at the spec's worked example. -/
theorem consensus_height_selection_witness :
    (∃ r s,
      getBlockNumberS 5 812005
        (([811995, 812000, 812001, 812002, 812050] : List Int).map some) =
        some (r, r) ∧
      s ∈ keptOf 5 ((([811995, 812000, 812001, 812002, 812050] : List Int).map
        some).filterMap id) ∧
      (∀ x ∈ keptOf 5 ((([811995, 812000, 812001, 812002, 812050] :
        List Int).map some).filterMap id), x ≤ s) ∧
      r = max s 812005 ∧
      keptOf 5 ((([811995, 812000, 812001, 812002, 812050] : List Int).map
        some).filterMap id) ≠ [] ∧
      (∀ n : Int, n ∈ keptOf 5 ((([811995, 812000, 812001, 812002, 812050] :
          List Int).map some).filterMap id) ↔
        n ∈ (([811995, 812000, 812001, 812002, 812050] : List Int).map
          some).filterMap id ∧
        medianOf ((([811995, 812000, 812001, 812002, 812050] : List Int).map
          some).filterMap id) - 5 ≤ n ∧
        n ≤ medianOf ((([811995, 812000, 812001, 812002, 812050] :
          List Int).map some).filterMap id) + 5)) ∧
    medianOf [811995, 812000, 812001, 812002, 812050] = 812001 ∧
    keptOf 5 [811995, 812000, 812001, 812002, 812050] =
      [812000, 812001, 812002] ∧
    pickConsensusHead 5 0 [811995, 812000, 812001, 812002, 812050] =
      some 812002 ∧
    getBlockNumberS 5 812005
      (([811995, 812000, 812001, 812002, 812050] : List Int).map some) =
      some (812005, 812005) :=
  consensus_height_selection _ 5 812005 (by decide) (by decide)

/-- C2 — Ratchet monotonicity: over a sequence of `getBlockNumber()` calls
on one provider instance, each with at least one successful observation,
the returned values are pairwise monotonically non-decreasing (every
returned value is ≥ every value returned before it), regardless of the
raw observations. -/
theorem ratchet_monotone (w lastHead : Int) (calls : List (List (Option Int)))
    (h : ∀ raw ∈ calls, raw.filterMap id ≠ []) :
    ∃ vs : List Int, (runCalls w lastHead calls).1 = vs.map some ∧
      List.Pairwise (· ≤ ·) vs := by
  obtain ⟨vs, h1, h2⟩ := runCalls_chain w calls lastHead h
  exact ⟨vs, h1, (List.pairwise_cons.mp h2).2⟩

/-- Witness for C2 on a run whose second consensus computation yields a
lower raw value (10 then 7): the returned sequence is still monotone. -/
theorem ratchet_monotone_witness :
    ∃ vs : List Int, (runCalls 5 0 [[some 10], [some 7]]).1 = vs.map some ∧
      List.Pairwise (· ≤ ·) vs :=
  ratchet_monotone 5 0 [[some 10], [some 7]] (by decide)

/-! ### Helper lemmas about the fan-out executor -/

lemma settle_isSome (validate : Option α → Bool) (o : RpcResult α) :
    (settleOne validate o).isSome = isValidatedSuccess validate o := by
  cases o with
  | err => rfl
  | ok v =>
    cases v with
    | none =>
      by_cases h : validate none <;> simp [settleOne, isValidatedSuccess, h]
    | some a =>
      by_cases h : validate (some a) <;> simp [settleOne, isValidatedSuccess, h]

lemma isValidatedSuccess_true_elim {validate : Option α → Bool}
    {o : RpcResult α} (h : isValidatedSuccess validate o = true) :
    ∃ a, o = RpcResult.ok (some a) ∧ validate (some a) = true := by
  cases o with
  | err => simp [isValidatedSuccess] at h
  | ok v =>
    cases v with
    | none => simp [isValidatedSuccess] at h
    | some a => exact ⟨a, rfl, h⟩

lemma settleOne_eq_none {validate : Option α → Bool} {o : RpcResult α}
    (h : isValidatedSuccess validate o = false) :
    settleOne validate o = none := by
  have hs := settle_isSome validate o
  rw [h] at hs
  cases he : settleOne validate o with
  | none => rfl
  | some a => rw [he] at hs; simp at hs

lemma executeParallel_cons_fail {isTruthy : α → Bool}
    {validate : Option α → Bool} {o : RpcResult α}
    (h : isValidatedSuccess validate o = false) (rest : List (RpcResult α)) :
    executeParallel isTruthy validate (o :: rest) =
      executeParallel isTruthy validate rest := by
  have hnone : settleOne validate o = none := settleOne_eq_none h
  simp [executeParallel, hnone]

lemma executeParallel_ok_elim {isTruthy : α → Bool}
    {validate : Option α → Bool}
    {outcomes : List (RpcResult α)} {v : Option α}
    (h : executeParallel isTruthy validate outcomes = Except.ok v) :
    ∃ a, v = some a ∧ validate (some a) = true := by
  unfold executeParallel at h
  cases hf : (outcomes.map (settleOne validate)).find? Option.isSome with
  | none => rw [hf] at h; cases h
  | some u =>
    rw [hf] at h
    cases u with
    | none => cases h
    | some a =>
      have h2 : (if isTruthy a then Except.ok (some a)
          else Except.error "All RPC nodes failed") = Except.ok v := h
      by_cases ht : isTruthy a
      · rw [if_pos ht] at h2
        cases h2
        have hmem := List.mem_of_find?_eq_some hf
        obtain ⟨o, _, hso⟩ := List.mem_map.mp hmem
        refine ⟨a, rfl, ?_⟩
        cases o with
        | err => simp [settleOne] at hso
        | ok vv =>
          by_cases hval : validate vv
          · simp only [settleOne, if_pos hval] at hso
            rwa [hso] at hval
          · simp [settleOne, hval] at hso
      · rw [if_neg ht] at h2
        cases h2

/-- C3 counterexample — a falsy validated success is not returned: with
no validator (every fulfilment "passes validation", as in `getBalance`),
endpoint 0 fulfils with the bigint `0` (a zero balance, JS-falsy) and
endpoint 1 with `5`, yet the program throws "All RPC nodes failed"
because `if (!ok)` tests truthiness of the found value — the claim says
endpoint 0's result is returned, and in particular that the call only
fails when zero endpoints produce a validated success. -/
theorem fanout_falsy_counterexample :
    isValidatedSuccess (fun _ => true) (RpcResult.ok (some (0 : Int))) =
      true ∧
    executeParallel (fun n : Int => decide (n ≠ 0)) (fun _ => true)
      [RpcResult.ok (some 0), RpcResult.ok (some 5)] =
      Except.error "All RPC nodes failed" :=
  ⟨rfl, rfl⟩

/-- C3 (amended) — Fan-out selection order with the truthiness gate: the
executor locates the earliest endpoint, in configured order, whose call
settled with a non-`null` validated success (everything strictly before
it failed, failed validation, or fulfilled with `null`), independent of
settle timing (the `results` array of `Promise.all` is in configured
endpoint order).  That endpoint's value is returned when it is
JS-truthy; when it is falsy the call instead throws the aggregate
"All RPC nodes failed" error without consulting later endpoints, and
when no endpoint produces a non-`null` validated success the call throws
the same error. -/
theorem fanout_config_order (α : Type) (isTruthy : α → Bool)
    (validate : Option α → Bool) (outcomes : List (RpcResult α)) :
    ((∃ o ∈ outcomes, isValidatedSuccess validate o = true) →
      ∃ i, ∃ hi : i < outcomes.length, ∃ a,
        outcomes.get ⟨i, hi⟩ = RpcResult.ok (some a) ∧
        validate (some a) = true ∧
        (∀ j, ∀ hj : j < outcomes.length, j < i →
          isValidatedSuccess validate (outcomes.get ⟨j, hj⟩) = false) ∧
        executeParallel isTruthy validate outcomes =
          (if isTruthy a then Except.ok (some a)
           else Except.error "All RPC nodes failed")) ∧
    ((∀ o ∈ outcomes, isValidatedSuccess validate o = false) →
      executeParallel isTruthy validate outcomes =
        Except.error "All RPC nodes failed") := by
  induction outcomes with
  | nil =>
    constructor
    · rintro ⟨o, ho, -⟩
      simp at ho
    · intro _
      rfl
  | cons o rest ih =>
    by_cases hhead : isValidatedSuccess validate o = true
    · obtain ⟨a, rfl, hval⟩ := isValidatedSuccess_true_elim hhead
      constructor
      · intro _
        refine ⟨0, by simp, a, rfl, hval, ?_, ?_⟩
        · intro j hj hj0
          omega
        · have hsettle : settleOne validate (RpcResult.ok (some a)) = some a := by
            simp [settleOne, hval]
          simp [executeParallel, hsettle]
      · intro hall
        have hfalse := hall _ (List.mem_cons_self _ _)
        rw [hhead] at hfalse
        cases hfalse
    · have hhead2 : isValidatedSuccess validate o = false := by
        simpa using hhead
      have hskip : executeParallel isTruthy validate (o :: rest) =
          executeParallel isTruthy validate rest :=
        executeParallel_cons_fail hhead2 rest
      constructor
      · rintro ⟨o2, ho2, hsucc⟩
        have hrest : ∃ o2 ∈ rest, isValidatedSuccess validate o2 = true := by
          rcases List.mem_cons.mp ho2 with rfl | hmem
          · rw [hhead2] at hsucc; cases hsucc
          · exact ⟨o2, hmem, hsucc⟩
        obtain ⟨i, hi, a, h1, h2, h3, h4⟩ := ih.1 hrest
        refine ⟨i + 1, by simpa using Nat.succ_lt_succ hi, a, h1, h2, ?_,
          by rwa [hskip]⟩
        intro j hj hjlt
        cases j with
        | zero => exact hhead2
        | succ j2 => exact h3 j2 (by omega) (by omega)
      · intro hall
        rw [hskip]
        exact ih.2 (fun o2 ho2 => hall o2 (List.mem_cons_of_mem _ ho2))

/-- Witness for C3 (amended): with endpoints `[err, ok 7, ok 9]` and
bigint truthiness, the earliest non-`null` validated success is endpoint
1's `7`, which is truthy, so it is returned instead of the
also-successful later endpoint's `9`. -/
theorem fanout_config_order_witness :
    ∃ i, ∃ hi : i < ([RpcResult.err, RpcResult.ok (some 7),
      RpcResult.ok (some 9)] : List (RpcResult Nat)).length, ∃ a,
      ([RpcResult.err, RpcResult.ok (some 7), RpcResult.ok (some 9)] :
        List (RpcResult Nat)).get ⟨i, hi⟩ = RpcResult.ok (some a) ∧
      (fun v : Option Nat => v.isSome) (some a) = true ∧
      (∀ j, ∀ hj : j < ([RpcResult.err, RpcResult.ok (some 7),
        RpcResult.ok (some 9)] : List (RpcResult Nat)).length, j < i →
        isValidatedSuccess (fun v => v.isSome)
          (([RpcResult.err, RpcResult.ok (some 7), RpcResult.ok (some 9)] :
            List (RpcResult Nat)).get ⟨j, hj⟩) = false) ∧
      executeParallel (fun n => decide (n ≠ 0)) (fun v => v.isSome)
        [RpcResult.err, RpcResult.ok (some 7), RpcResult.ok (some 9)] =
        (if (fun n : Nat => decide (n ≠ 0)) a then Except.ok (some a)
         else Except.error "All RPC nodes failed") :=
  (fanout_config_order Nat (fun n => decide (n ≠ 0)) (fun v => v.isSome)
    [RpcResult.err, RpcResult.ok (some 7), RpcResult.ok (some 9)]).1
    (by decide)

/-- C10 — a successful `null` response is discarded exactly like a
failure: the executor never fulfils with `null`; `getBlock`,
`getTransaction` and `getTransactionReceipt` therefore either return a
validator-accepted value (a block/transaction with a truthy hash, a
receipt with a `status` field) or throw — and when every endpoint
succeeds with `null` (entity not found everywhere) the call still throws
"All RPC nodes failed". -/
theorem null_success_discarded :
    (∀ (α : Type) (isTruthy : α → Bool) (validate : Option α → Bool)
        (outcomes : List (RpcResult α)) (v : Option α),
      executeParallel isTruthy validate outcomes = Except.ok v →
        ∃ a, v = some a ∧ validate (some a) = true) ∧
    (∀ (α : Type) (isTruthy : α → Bool) (validate : Option α → Bool)
        (outcomes : List (RpcResult α)),
      (∀ o ∈ outcomes, o = RpcResult.ok none) →
      executeParallel isTruthy validate outcomes =
        Except.error "All RPC nodes failed") ∧
    (∀ (outcomes : List (RpcResult BlockJs)) (v : Option BlockJs),
      getBlockM outcomes = Except.ok v →
        ∃ b, v = some b ∧ truthy b.hash = true) ∧
    (∀ (outcomes : List (RpcResult TxJs)) (v : Option TxJs),
      getTransactionM outcomes = Except.ok v →
        ∃ tx, v = some tx ∧ truthy tx.hash = true) ∧
    (∀ (outcomes : List (RpcResult ReceiptJs)) (v : Option ReceiptJs),
      getTransactionReceiptM outcomes = Except.ok v →
        ∃ r, v = some r ∧ r.hasStatus = true) := by
  have hok : ∀ (α : Type) (isTruthy : α → Bool) (validate : Option α → Bool)
      (outcomes : List (RpcResult α)) (v : Option α),
      executeParallel isTruthy validate outcomes = Except.ok v →
        ∃ a, v = some a ∧ validate (some a) = true :=
    fun _ _ _ _ _ h => executeParallel_ok_elim h
  refine ⟨hok, ?_, ?_, ?_, ?_⟩
  · intro α isTruthy validate outcomes hall
    have hfind : (outcomes.map (settleOne validate)).find? Option.isSome = none := by
      rw [List.find?_eq_none]
      intro x hx
      obtain ⟨o, ho, hso⟩ := List.mem_map.mp hx
      rw [hall o ho] at hso
      have : settleOne validate (RpcResult.ok (none : Option α)) = none := by
        by_cases h : validate none <;> simp [settleOne, h]
      rw [this] at hso
      rw [← hso]
      simp
    simp [executeParallel, hfind]
  · intro outcomes v h
    obtain ⟨b, hb, hval⟩ :=
      hok BlockJs (fun _ => true) blockValidator outcomes v h
    exact ⟨b, hb, hval⟩
  · intro outcomes v h
    obtain ⟨tx, htx, hval⟩ :=
      hok TxJs (fun _ => true) txValidator outcomes v h
    exact ⟨tx, htx, hval⟩
  · intro outcomes v h
    obtain ⟨r, hr, hval⟩ :=
      hok ReceiptJs (fun _ => true) receiptValidator outcomes v h
    exact ⟨r, hr, hval⟩

/-- Witness for C10: a concrete successful fan-out call, and a call in
which both endpoints succeed with `null` and the executor throws. -/
theorem null_success_discarded_witness :
    (∃ b, (some ⟨some "0xabc"⟩ : Option BlockJs) = some b ∧
      truthy b.hash = true) ∧
    getBlockM [RpcResult.ok none, RpcResult.ok none] =
      Except.error "All RPC nodes failed" :=
  ⟨null_success_discarded.2.2.1 [RpcResult.ok (some ⟨some "0xabc"⟩)]
      (some ⟨some "0xabc"⟩) rfl,
    null_success_discarded.2.1 BlockJs (fun _ => true) blockValidator
      [RpcResult.ok none, RpcResult.ok none] (by decide)⟩

/-! ### Helper lemmas about the getLogs reducer -/

lemma foldl_pickLonger_spec {α : Type} :
    ∀ (rest : List (List α)) (a : List α),
      ∃ l1 l2, a :: rest = l1 ++ (rest.foldl pickLonger a) :: l2 ∧
        (∀ x ∈ l1, x.length < (rest.foldl pickLonger a).length) ∧
        (∀ x ∈ a :: rest, x.length ≤ (rest.foldl pickLonger a).length) := by
  intro rest
  induction rest with
  | nil =>
    intro a
    exact ⟨[], [], rfl, by simp, by simp⟩
  | cons b t ih =>
    intro a
    rw [List.foldl_cons]
    obtain ⟨l1, l2, hsplit, hlt, hle⟩ := ih (pickLonger a b)
    by_cases hlen : a.length < b.length
    · have hab : pickLonger a b = b := by simp [pickLonger, hlen]
      rw [hab] at hsplit hlt hle ⊢
      cases l1 with
      | nil =>
        simp only [List.nil_append] at hsplit
        refine ⟨[a], l2, ?_, ?_, ?_⟩
        · simp only [List.cons_append, List.nil_append]
          rw [← hsplit]
        · intro x hx
          simp only [List.mem_singleton] at hx
          subst hx
          exact lt_of_lt_of_le hlen (hle b (List.mem_cons_self _ _))
        · intro x hx
          rcases List.mem_cons.mp hx with rfl | hx2
          · exact le_of_lt (lt_of_lt_of_le hlen (hle b (List.mem_cons_self _ _)))
          · exact hle x hx2
      | cons hd tl =>
        injection hsplit with h1 h2
        subst h1
        refine ⟨a :: b :: tl, l2, ?_, ?_, ?_⟩
        · simp only [List.cons_append]
          exact congrArg (fun s => a :: b :: s) h2
        · intro x hx
          rcases List.mem_cons.mp hx with rfl | hx2
          · exact lt_trans hlen (hlt b (List.mem_cons_self _ _))
          · exact hlt x hx2
        · intro x hx
          rcases List.mem_cons.mp hx with rfl | hx2
          · exact le_of_lt (lt_trans hlen (hlt b (List.mem_cons_self _ _)))
          · exact hle x hx2
    · have hab : pickLonger a b = a := by
        have hgt : ¬ b.length > a.length := hlen
        simp [pickLonger, hgt]
      rw [hab] at hsplit hlt hle ⊢
      cases l1 with
      | nil =>
        simp only [List.nil_append] at hsplit
        injection hsplit with h1 h2
        refine ⟨[], b :: l2, ?_, by simp, ?_⟩
        · simp only [List.nil_append]
          rw [← h1, ← h2]
        · intro x hx
          rcases List.mem_cons.mp hx with rfl | hx2
          · rw [← h1]
          · rcases List.mem_cons.mp hx2 with rfl | hx3
            · rw [← h1]
              exact le_of_not_lt hlen
            · exact hle x (List.mem_cons_of_mem _ hx3)
      | cons hd tl =>
        injection hsplit with h1 h2
        subst h1
        refine ⟨a :: b :: tl, l2, ?_, ?_, ?_⟩
        · simp only [List.cons_append]
          exact congrArg (fun s => a :: b :: s) h2
        · intro x hx
          rcases List.mem_cons.mp hx with rfl | hx2
          · exact hlt x (List.mem_cons_self _ _)
          · rcases List.mem_cons.mp hx2 with rfl | hx3
            · exact lt_of_le_of_lt (le_of_not_lt hlen)
                (hlt a (List.mem_cons_self _ _))
            · exact hlt x (List.mem_cons_of_mem _ hx3)
        · intro x hx
          rcases List.mem_cons.mp hx with rfl | hx2
          · exact hle x (List.mem_cons_self _ _)
          · rcases List.mem_cons.mp hx2 with rfl | hx3
            · exact le_trans (le_of_not_lt hlen)
                (hle a (List.mem_cons_self _ _))
            · exact hle x (List.mem_cons_of_mem _ hx3)

lemma foldl_pickLonger_nil {α : Type} : ∀ (l : List (List α)),
    (∀ x ∈ l, x = []) → l.foldl pickLonger ([] : List α) = [] := by
  intro l
  induction l with
  | nil => intro _; rfl
  | cons x t ih =>
    intro h
    have hx : x = [] := h x (List.mem_cons_self _ _)
    rw [List.foldl_cons, hx]
    have hpl : pickLonger ([] : List α) [] = [] := rfl
    rw [hpl]
    exact ih (fun y hy => h y (List.mem_cons_of_mem _ hy))

/-- C7 — Log-query longest-list selection: for a non-empty endpoint set,
`getLogs` returns one of the endpoints' settled result lists (`r` occurs
in the settled-results list, split as `l1 ++ r :: l2`), whose length is ≥
every endpoint's settled length; every settled result strictly before it
(in configured endpoint order) is strictly shorter, so ties go to the
earliest endpoint with the maximal length; and a failing endpoint
contributes `[]` instead of aborting the call. -/
theorem getLogs_longest (α : Type) (outcomes : List (LogOutcome α))
    (h : outcomes ≠ []) :
    ∃ r l1 l2, getLogsM outcomes = some r ∧
      outcomes.map settleLogs = l1 ++ r :: l2 ∧
      (∀ x ∈ l1, x.length < r.length) ∧
      (∀ x ∈ outcomes.map settleLogs, x.length ≤ r.length) ∧
      settleLogs (LogOutcome.err : LogOutcome α) = [] := by
  cases ho : outcomes.map settleLogs with
  | nil => exact absurd (List.map_eq_nil_iff.mp ho) h
  | cons a rest =>
    obtain ⟨l1, l2, hsplit, hlt, hle⟩ := foldl_pickLonger_spec rest a
    refine ⟨rest.foldl pickLonger a, l1, l2, ?_, ?_, hlt, ?_, rfl⟩
    · simp [getLogsM, ho, getLogsSelect]
    · exact hsplit
    · exact hle

/-- Witness for C7: two endpoints, the first failing, the second
returning two logs; the selected list is the second endpoint's. -/
theorem getLogs_longest_witness :
    ∃ r l1 l2,
      getLogsM [LogOutcome.err, LogOutcome.ok ([1, 2] : List Nat)] = some r ∧
      ([LogOutcome.err, LogOutcome.ok ([1, 2] : List Nat)]).map settleLogs =
        l1 ++ r :: l2 ∧
      (∀ x ∈ l1, x.length < r.length) ∧
      (∀ x ∈ ([LogOutcome.err,
        LogOutcome.ok ([1, 2] : List Nat)]).map settleLogs,
        x.length ≤ r.length) ∧
      settleLogs (LogOutcome.err : LogOutcome Nat) = [] :=
  getLogs_longest Nat [LogOutcome.err, LogOutcome.ok [1, 2]] (by decide)

/-- C8 counterexample — the claim "total failure is always surfaced as an
explicit error, in particular for getLogs" is false: when every endpoint
fails, `getLogs` returns the placeholder empty list instead of an
error (`none` here would model the thrown error). -/
theorem getLogs_total_failure_counterexample :
    getLogsM ([LogOutcome.err, LogOutcome.err] : List (LogOutcome Nat)) =
      some [] ∧
    getLogsM ([LogOutcome.err, LogOutcome.err] : List (LogOutcome Nat)) ≠
      none := by
  exact ⟨rfl, by decide⟩

/-- C8 (amended) — total-failure behavior per call class: every call
routed through the fan-out executor whose endpoints all settle to `null`
throws the aggregate "All RPC nodes failed" error; `getBlockNumber`
throws when no endpoint reports a height; but `getLogs` silently returns
the empty list when every endpoint fails. -/
theorem total_failure_behavior :
    (∀ (α : Type) (isTruthy : α → Bool) (validate : Option α → Bool)
        (outcomes : List (RpcResult α)),
      (∀ o ∈ outcomes, settleOne validate o = none) →
      executeParallel isTruthy validate outcomes =
        Except.error "All RPC nodes failed") ∧
    (∀ (w lastHead : Int) (raw : List (Option Int)), raw.filterMap id = [] →
      getBlockNumberS w lastHead raw = none) ∧
    (∀ (α : Type) (outcomes : List (LogOutcome α)), outcomes ≠ [] →
      (∀ o ∈ outcomes, o = LogOutcome.err) → getLogsM outcomes = some []) := by
  refine ⟨?_, ?_, ?_⟩
  · intro α isTruthy validate outcomes hall
    have hfind : (outcomes.map (settleOne validate)).find? Option.isSome =
        none := by
      rw [List.find?_eq_none]
      intro x hx
      obtain ⟨o, ho, hso⟩ := List.mem_map.mp hx
      rw [hall o ho] at hso
      rw [← hso]
      simp
    simp [executeParallel, hfind]
  · intro w lastHead raw hraw
    simp [getBlockNumberS, hraw, pickConsensusHead]
  · intro α outcomes hne hall
    cases outcomes with
    | nil => cases hne rfl
    | cons o t =>
      have ho : o = LogOutcome.err := hall o (List.mem_cons_self _ _)
      have hmap : (o :: t).map settleLogs = [] :: t.map settleLogs := by
        rw [ho]; rfl
      have hrest : ∀ x ∈ t.map settleLogs, x = ([] : List α) := by
        intro x hx
        obtain ⟨o2, ho2, hso2⟩ := List.mem_map.mp hx
        rw [hall o2 (List.mem_cons_of_mem _ ho2)] at hso2
        exact hso2.symm
      have := foldl_pickLonger_nil (t.map settleLogs) hrest
      simp [getLogsM, hmap, getLogsSelect, this]

/-- Witness for C8 (amended): a concrete all-failed executor call throws,
a concrete all-failed height call throws, and a concrete all-failed
`getLogs` call returns the empty list. -/
theorem total_failure_behavior_witness :
    executeParallel (fun _ : Nat => true) (fun v : Option Nat => v.isSome)
      [RpcResult.err] = Except.error "All RPC nodes failed" ∧
    getBlockNumberS 5 0 [none, none] = none ∧
    getLogsM ([LogOutcome.err] : List (LogOutcome Nat)) = some [] :=
  ⟨total_failure_behavior.1 Nat (fun _ => true) (fun v => v.isSome)
      [RpcResult.err] (by decide),
    total_failure_behavior.2.1 5 0 [none, none] (by decide),
    total_failure_behavior.2.2 Nat [LogOutcome.err] (by decide) (by decide)⟩

/-! ### Helper lemmas about the block-reader loop -/

lemma drainGo_run_spec : ∀ (fuel : Nat) (buf : List Int) (c : Int),
    ∃ k, drainGo fuel buf c =
        (runTrace c k, c + (k : Int), removeRun buf c k) ∧
      ∀ i : Nat, i < k → (c + (i : Int)) ∈ removeRun buf c i := by
  intro fuel
  induction fuel with
  | zero =>
    intro buf c
    refine ⟨0, ?_, by omega⟩
    simp [drainGo, runTrace, removeRun]
  | succ fuel ih =>
    intro buf c
    by_cases hmem : c ∈ buf
    · obtain ⟨k, hk, hpres⟩ := ih (buf.erase c) (c + 1)
      refine ⟨k + 1, ?_, ?_⟩
      · have harith : (c + 1) + (k : Int) = c + ((k + 1 : Nat) : Int) := by
          push_cast; ring
        simp only [drainGo, if_pos hmem, hk, runTrace, removeRun, harith]
      · intro i hi
        cases i with
        | zero => simpa [removeRun] using hmem
        | succ i2 =>
          have hp := hpres i2 (by omega)
          have harith : c + ((i2 + 1 : Nat) : Int) = (c + 1) + (i2 : Int) := by
            push_cast; ring
          rw [harith]
          simpa [removeRun] using hp
    · refine ⟨0, ?_, by omega⟩
      simp [drainGo, hmem, runTrace, removeRun]

lemma runTrace_emit_split : ∀ (k : Nat) (c n : Int),
    DrainEv.emitB n ∈ runTrace c k →
    ∃ l1 l2, runTrace c k = l1 ++ DrainEv.save n :: DrainEv.emitB n :: l2 := by
  intro k
  induction k with
  | zero => intro c n h; simp [runTrace] at h
  | succ k ih =>
    intro c n h
    simp only [runTrace, List.mem_cons] at h
    rcases h with h1 | h2 | h3
    · cases h1
    · injection h2 with h2
      refine ⟨[], runTrace (c + 1) k, ?_⟩
      rw [h2]
      rfl
    · obtain ⟨l1, l2, hsp⟩ := ih (c + 1) n h3
      exact ⟨DrainEv.save c :: DrainEv.emitB c :: l1, l2, by
        simp [runTrace, hsp]⟩

lemma consRun_length : ∀ (k : Nat) (c : Int), (consRun c k).length = k := by
  intro k
  induction k with
  | zero => intro c; rfl
  | succ k ih => intro c; simp [consRun, ih]

lemma drainGo_consRun : ∀ (k : Nat) (c : Int) (fuel : Nat), k ≤ fuel →
    drainGo fuel (consRun c k) c = (runTrace c k, c + (k : Int), []) := by
  intro k
  induction k with
  | zero =>
    intro c fuel _
    cases fuel with
    | zero => simp [drainGo, consRun, runTrace]
    | succ f => simp [drainGo, consRun, runTrace]
  | succ k ih =>
    intro c fuel hf
    cases fuel with
    | zero => omega
    | succ f =>
      have hmem : c ∈ consRun c (k + 1) := by simp [consRun]
      have herase : (consRun c (k + 1)).erase c = consRun (c + 1) k := by
        simp [consRun]
      have harith : (c + 1) + (k : Int) = c + ((k + 1 : Nat) : Int) := by
        push_cast; ring
      simp only [drainGo, if_pos hmem, herase, ih (c + 1) f (by omega),
        runTrace, harith]

lemma iterGo_all_success_bound : ∀ (fuel : Nat) (head n : Int) (m : Nat),
    (iterGo (fun _ => true) head fuel n n [] m).2.2 ≤ max m 5 := by
  intro fuel
  induction fuel with
  | zero => intro head n m; exact le_max_left _ _
  | succ fuel ih =>
    intro head n m
    by_cases hn : n ≤ head
    · have hfilter : (consRun n (batchSize n head)).filter (fun _ => true) =
          consRun n (batchSize n head) := List.filter_true _
      have hlen : (consRun n (batchSize n head)).length = batchSize n head :=
        consRun_length _ _
      have hdrain := drainGo_consRun (batchSize n head) n
        (batchSize n head) (le_refl _)
      have hbs : batchSize n head ≤ 5 := Nat.min_le_left _ _
      simp only [iterGo, if_pos hn, List.nil_append, hfilter, hlen, hdrain]
      have hm1 : max m (batchSize n head) ≤ max m 5 :=
        max_le (le_max_left _ _) (le_trans hbs (le_max_right _ _))
      calc (iterGo (fun _ => true) head fuel (n + (batchSize n head : Int))
              (n + (batchSize n head : Int)) []
              (max m (batchSize n head))).2.2
          ≤ max (max m (batchSize n head)) 5 := ih head _ _
        _ ≤ max m 5 := max_le hm1 (le_max_right _ _)
    · simp only [iterGo, if_neg hn]
      exact le_max_left _ _

/-! ### Claims about block-reader.ts -/

/-- C4 counterexample — a persisted checkpoint value of `0` falsifies the
claim: with `C = 0` and `H = 5` we have `H − C = 5 ≤ 10`, yet the loop
resumes at `-4` (`H − 10 + 1`), not at `C + 1 = 1`, because the guard
`!lastProcessedBlock` treats 0 as absent. -/
theorem resume_counterexample :
    resumePoint 0 5 = -4 ∧ (5 : Int) - 0 ≤ 10 ∧ resumePoint 0 5 ≠ 0 + 1 := by
  decide

/-- C4 (amended) — startup and recovery resume points for a nonzero
persisted checkpoint `c`: if `h − c ≤ 10` the loop resumes exactly at
`c + 1`; if `h − c > 10` it resumes at `h − 10 + 1` (and
`loadLastProcessedBlock`/`resumePoint` are total functions, so no error is
raised for the skipped range).  For checkpoint `0` (also the parse result
of an unreadable file) the cursor is always fast-forwarded to
`h − 10 + 1`, regardless of how close the checkpoint is to the height. -/
theorem resume_points (c h : Int) (hc : c ≠ 0) :
    (h - c ≤ 10 → resumePoint c h = c + 1) ∧
    (h - c > 10 → resumePoint c h = h - 10 + 1) ∧
    (∀ h2 : Int, resumePoint 0 h2 = h2 - 10 + 1) := by
  refine ⟨?_, ?_, ?_⟩
  · intro hle
    have hng : ¬ (h - c > 10 ∨ c = 0) := by
      push_neg
      exact ⟨by omega, hc⟩
    unfold resumePoint loadLastProcessedBlock
    rw [if_neg hng]
  · intro hgt
    unfold resumePoint loadLastProcessedBlock
    rw [if_pos (Or.inl hgt)]
  · intro h2
    unfold resumePoint loadLastProcessedBlock
    rw [if_pos (Or.inr rfl)]

/-- Witness for C4 (amended) at checkpoint 100: height 105 resumes at
101, and the fast-forward formula holds for checkpoint 0. -/
theorem resume_points_witness :
    (((105 : Int) - 100 ≤ 10 → resumePoint 100 105 = 100 + 1) ∧
      ((105 : Int) - 100 > 10 → resumePoint 100 105 = 105 - 10 + 1) ∧
      (∀ h2 : Int, resumePoint 0 h2 = h2 - 10 + 1)) ∧
    resumePoint 100 105 = 101 :=
  ⟨resume_points 100 105 (by decide), by decide⟩

/-- C5 — Checkpoint-before-announce ordering: draining the pending buffer
produces exactly the trace `save c, emitB c, save (c+1), emitB (c+1), …`
for some run length `k`, the cursor ends at `c + k`, and the buffer loses
exactly that contiguous run; in particular every announced block `n` has
its checkpoint `save n` strictly (and immediately) before its
`emitB n` event, and the cursor advances past `n` only afterwards. -/
theorem checkpoint_before_announce (buf : List Int) (c : Int) :
    ∃ k, drainGo buf.length buf c =
        (runTrace c k, c + (k : Int), removeRun buf c k) ∧
      ∀ n, DrainEv.emitB n ∈ (drainGo buf.length buf c).1 →
        ∃ l1 l2, (drainGo buf.length buf c).1 =
          l1 ++ DrainEv.save n :: DrainEv.emitB n :: l2 := by
  obtain ⟨k, hk, -⟩ := drainGo_run_spec buf.length buf c
  refine ⟨k, hk, ?_⟩
  intro n hn
  obtain ⟨l1, l2, hsp⟩ := runTrace_emit_split k c n (by
    rw [hk] at hn
    exact hn)
  exact ⟨l1, l2, by rw [hk]; exact hsp⟩

/-- Witness for C5 on the one-element buffer `[7]` with cursor 7. -/
theorem checkpoint_before_announce_witness :
    ∃ k, drainGo ([7] : List Int).length [7] 7 =
        (runTrace 7 k, 7 + (k : Int), removeRun [7] 7 k) ∧
      ∀ n, DrainEv.emitB n ∈ (drainGo ([7] : List Int).length [7] 7).1 →
        ∃ l1 l2, (drainGo ([7] : List Int).length [7] 7).1 =
          l1 ++ DrainEv.save n :: DrainEv.emitB n :: l2 :=
  checkpoint_before_announce [7] 7

/-- C6 — the retry ceiling is not honoured: for a block whose every fetch
attempt throws, `tryGetBlock` with `maxAttempts = 3` invokes
`provider.getBlock` only 2 times (the `attempts` counter is incremented
both inside the `catch` block and at the loop tail) and sleeps only once,
then gives up; the claimed 3 invocations happen only on the hash-less
path, which in turn never sleeps between attempts. -/
theorem retry_ceiling_divergence :
    tryGetBlockSim (fun _ => FetchOutcome.throwsErr) 3 = (false, 2, 1) ∧
    tryGetBlockSim (fun _ => FetchOutcome.noHash) 3 = (false, 3, 0) ∧
    tryGetBlockSim (fun _ => FetchOutcome.good) 3 = (true, 1, 0) ∧
    (2 : Nat) ≠ 3 := by
  decide

/-- C9 counterexample — the pending buffer is not bounded by the batch
size: with head 9, cursor 0 and only block 0 failing to fetch, the buffer
grows to 9 entries (> 5) within one iteration, because nothing can drain
while the cursor's block is missing and later batches keep inserting. -/
theorem pending_buffer_counterexample :
    (iteration (fun n => decide (n ≠ 0)) 9 0).2.2 = 9 ∧ ¬ (9 : Nat) ≤ 5 := by
  decide

/-- C9 (amended) — entries leave the pending buffer only as a contiguous
run starting at the delivery cursor (each removed entry was present when
removed); and the batch-size bound (5) on the buffer holds only in the
failure-free case: when every fetch succeeds, each batch is drained
completely before the next one, so the buffer never exceeds
`max m 5` where `m` is the initial recorded size.  (With a fetch failure
at the cursor the bound fails, as the counterexample shows.) -/
theorem pending_buffer_behavior :
    (∀ (fuel : Nat) (buf : List Int) (c : Int),
      ∃ k, drainGo fuel buf c =
          (runTrace c k, c + (k : Int), removeRun buf c k) ∧
        ∀ i : Nat, i < k → (c + (i : Int)) ∈ removeRun buf c i) ∧
    (∀ (fuel : Nat) (head n : Int) (m : Nat),
      (iterGo (fun _ => true) head fuel n n [] m).2.2 ≤ max m 5) :=
  ⟨drainGo_run_spec, iterGo_all_success_bound⟩

/-- Witness for C9 (amended) at a concrete buffer and a concrete
failure-free iteration. -/
theorem pending_buffer_behavior_witness :
    (∃ k, drainGo 2 [3, 4] 3 =
        (runTrace 3 k, 3 + (k : Int), removeRun [3, 4] 3 k) ∧
      ∀ i : Nat, i < k → ((3 : Int) + (i : Int)) ∈ removeRun [3, 4] 3 i) ∧
    (iterGo (fun _ => true) 9 10 0 0 [] 0).2.2 ≤ max 0 5 :=
  ⟨pending_buffer_behavior.1 2 [3, 4] 3, pending_buffer_behavior.2 10 9 0 0⟩
